import Mathlib

/-!
Verification of the `MarketEngine` matching engine (`src/market_engine.py`).

Shallow embedding conventions:
* Python floats are modelled as exact rationals (`ℚ`); the spec itself flags
  floating point as an accepted approximation, and every claim is about the
  algebraic behaviour of the algorithms.
* Python order dicts are modelled as the `Order` structure holding exactly the
  fields the engine reads: `side`, `price`, `size` and the internal `_id`
  (the `bot`/owner field is never read by any engine method and is omitted).
  `side` stays a `String`, as in the source, because the engine compares it
  against the literals `"buy"`/`"sell"` and accepts arbitrary strings.
* Caller-supplied snapshot records (which may lack the internal `_id` key)
  are modelled as `RawOrder` with `id : Option Nat`; a Python `KeyError`
  raised by a missing `_id` access is modelled as `Option.none` results.
* The mutable engine object is the `EngineState` record; mutating methods are
  state-passing functions `... → EngineState → EngineState × result`.
* Python's stable `sorted` with key `(price, _id)` / `(-price, _id)` is
  modelled with `List.insertionSort` (stable ordered insertion).  For the
  matching loop, which mutates the selected best orders *in place* (through
  dict aliasing), the sort is performed on position-tagged orders
  (`sortedIdx`), with the list position as the final tie-break — exactly the
  behaviour of a stable sort — so the update site in the book is known.
-/

/-- An order dict as stored in `MarketEngine.order_book`: every resting order
has been given an internal `_id` by `place_order`/`load_snapshot`. -/
structure Order where
  side : String
  price : ℚ
  size : ℚ
  id : Nat
deriving DecidableEq, Repr

/-- A caller-supplied order dict (snapshot record): `side`, `price`, `size`
present, internal `_id` possibly absent. -/
structure RawOrder where
  side : String
  price : ℚ
  size : ℚ
  id : Option Nat
deriving DecidableEq, Repr

/-- A trade record appended by `_match_orders`. -/
structure Trade where
  price : ℚ
  size : ℚ
  tick : Nat
deriving DecidableEq, Repr

/-- The mutable fields of `MarketEngine` that the verified methods touch.
(`vol`, `rng` and `bots` drive only the random-walk `step`, which no claim
is about.) -/
structure EngineState where
  orderBook : List Order
  tradeHistory : List Trade
  tick : Nat
  nextId : Nat
  truePrice : ℚ
  trueHistory : List ℚ
deriving DecidableEq, Repr

/-- `MarketEngine.__init__`. -/
def initEngine (initPrice : ℚ) : EngineState :=
  { orderBook := []
    tradeHistory := []
    tick := 0
    nextId := 0
    truePrice := initPrice
    trueHistory := [initPrice] }

/-- Python sort key `(x['price'], x['_id'])` for the sell side:
ascending price, ties by ascending id. -/
def sellLE (a b : Order) : Prop :=
  a.price < b.price ∨ (a.price = b.price ∧ a.id ≤ b.id)

/-- Python sort key `(-x['price'], x['_id'])` for the buy side:
descending price, ties by ascending id. -/
def buyLE (a b : Order) : Prop :=
  b.price < a.price ∨ (a.price = b.price ∧ a.id ≤ b.id)

instance : DecidableRel sellLE := fun a b =>
  inferInstanceAs (Decidable (a.price < b.price ∨ (a.price = b.price ∧ a.id ≤ b.id)))

instance : DecidableRel buyLE := fun a b =>
  inferInstanceAs (Decidable (b.price < a.price ∨ (a.price = b.price ∧ a.id ≤ b.id)))

instance : IsTotal Order sellLE where
  total a b := by
    unfold sellLE
    rcases lt_trichotomy a.price b.price with h | h | h
    · exact Or.inl (Or.inl h)
    · rcases Nat.le_total a.id b.id with h2 | h2
      · exact Or.inl (Or.inr ⟨h, h2⟩)
      · exact Or.inr (Or.inr ⟨h.symm, h2⟩)
    · exact Or.inr (Or.inl h)

instance : IsTrans Order sellLE where
  trans a b c hab hbc := by
    unfold sellLE at *
    rcases hab with h1 | ⟨h1, h1'⟩ <;> rcases hbc with h2 | ⟨h2, h2'⟩
    · exact Or.inl (h1.trans h2)
    · exact Or.inl (h2 ▸ h1)
    · exact Or.inl (h1 ▸ h2)
    · exact Or.inr ⟨h1.trans h2, h1'.trans h2'⟩

instance : IsTotal Order buyLE where
  total a b := by
    unfold buyLE
    rcases lt_trichotomy a.price b.price with h | h | h
    · exact Or.inr (Or.inl h)
    · rcases Nat.le_total a.id b.id with h2 | h2
      · exact Or.inl (Or.inr ⟨h, h2⟩)
      · exact Or.inr (Or.inr ⟨h.symm, h2⟩)
    · exact Or.inl (Or.inl h)

instance : IsTrans Order buyLE where
  trans a b c hab hbc := by
    unfold buyLE at *
    rcases hab with h1 | ⟨h1, h1'⟩ <;> rcases hbc with h2 | ⟨h2, h2'⟩
    · exact Or.inl (h2.trans h1)
    · exact Or.inl (h2 ▸ h1)
    · exact Or.inl (h1 ▸ h2)
    · exact Or.inr ⟨h1.trans h2, h1'.trans h2'⟩

/-- `MarketEngine._sorted_book(side)`: the orders of one side sorted by
price/time priority (buy: highest price first; sell: lowest price first;
ties by earlier id). -/
def sortedBook (side : String) (book : List Order) : List Order :=
  let sideOrders := book.filter (fun o => o.side = side)
  if side = "buy" then List.insertionSort buyLE sideOrders
  else List.insertionSort sellLE sideOrders

/-- `MarketEngine.place_order(order)`: coerce the fields, stamp the next
internal id, append to the book.  No validation and no matching occur. -/
def placeOrder (side : String) (price : ℚ) (size : ℚ) (st : EngineState) :
    EngineState :=
  { st with
    orderBook := st.orderBook ++ [⟨side, price, size, st.nextId⟩]
    nextId := st.nextId + 1 }

/-- Helper for `load_snapshot`: stamp consecutive internal ids onto snapshot
records, in input order. -/
def stampIds (nid : Nat) : List RawOrder → List Order
  | [] => []
  | o :: rest => ⟨o.side, o.price, o.size, nid⟩ :: stampIds (nid + 1) rest

/-- `MarketEngine.load_snapshot(snapshot)`: replace the book, stamping fresh
internal ids in input order. -/
def loadSnapshot (snapshot : List RawOrder) (st : EngineState) : EngineState :=
  { st with
    orderBook := stampIds st.nextId snapshot
    nextId := st.nextId + snapshot.length }

/-- Python's binary `min`, written out so that concrete instances reduce by
`decide`: `min(a, b)` is `a` when `a <= b` else `b`.  Equal to `Min.min` on
`ℚ` (`ratMin_eq_min` below). -/
def ratMin (a b : ℚ) : ℚ := if a ≤ b then a else b

/-- Orders tagged with their list position in `order_book`.  Python's
`sorted` is applied to the order dicts themselves and mutation happens
through the returned aliases; tagging each order with its position lets the
embedding name the book slot that the source mutates in place. -/
def withIdxFrom (n : Nat) : List Order → List (Nat × Order)
  | [] => []
  | o :: rest => (n, o) :: withIdxFrom (n + 1) rest

/-- Sell-side priority on position-tagged orders: Python's stable sort by
key `(price, _id)` equals sorting by `(price, _id, position)` since the
positions are distinct. -/
def sellIdxLE (a b : Nat × Order) : Prop :=
  a.2.price < b.2.price ∨
    (a.2.price = b.2.price ∧
      (a.2.id < b.2.id ∨ (a.2.id = b.2.id ∧ a.1 ≤ b.1)))

/-- Buy-side priority on position-tagged orders: Python's stable sort by
key `(-price, _id)` equals sorting by `(-price, _id, position)`. -/
def buyIdxLE (a b : Nat × Order) : Prop :=
  b.2.price < a.2.price ∨
    (a.2.price = b.2.price ∧
      (a.2.id < b.2.id ∨ (a.2.id = b.2.id ∧ a.1 ≤ b.1)))

instance : DecidableRel sellIdxLE := fun a b =>
  inferInstanceAs (Decidable (a.2.price < b.2.price ∨
    (a.2.price = b.2.price ∧
      (a.2.id < b.2.id ∨ (a.2.id = b.2.id ∧ a.1 ≤ b.1)))))

instance : DecidableRel buyIdxLE := fun a b =>
  inferInstanceAs (Decidable (b.2.price < a.2.price ∨
    (a.2.price = b.2.price ∧
      (a.2.id < b.2.id ∨ (a.2.id = b.2.id ∧ a.1 ≤ b.1)))))

instance : IsTotal (Nat × Order) sellIdxLE where
  total a b := by
    unfold sellIdxLE
    rcases lt_trichotomy a.2.price b.2.price with h | h | h
    · exact Or.inl (Or.inl h)
    · rcases lt_trichotomy a.2.id b.2.id with h2 | h2 | h2
      · exact Or.inl (Or.inr ⟨h, Or.inl h2⟩)
      · rcases Nat.le_total a.1 b.1 with h3 | h3
        · exact Or.inl (Or.inr ⟨h, Or.inr ⟨h2, h3⟩⟩)
        · exact Or.inr (Or.inr ⟨h.symm, Or.inr ⟨h2.symm, h3⟩⟩)
      · exact Or.inr (Or.inr ⟨h.symm, Or.inl h2⟩)
    · exact Or.inr (Or.inl h)

instance : IsTrans (Nat × Order) sellIdxLE where
  trans a b c hab hbc := by
    unfold sellIdxLE at *
    rcases hab with h1 | ⟨h1, h1'⟩ <;> rcases hbc with h2 | ⟨h2, h2'⟩
    · exact Or.inl (h1.trans h2)
    · exact Or.inl (h2 ▸ h1)
    · exact Or.inl (h1 ▸ h2)
    · refine Or.inr ⟨h1.trans h2, ?_⟩
      rcases h1' with h3 | ⟨h3, h3'⟩ <;> rcases h2' with h4 | ⟨h4, h4'⟩
      · exact Or.inl (h3.trans h4)
      · exact Or.inl (h4 ▸ h3)
      · exact Or.inl (h3 ▸ h4)
      · exact Or.inr ⟨h3.trans h4, h3'.trans h4'⟩

instance : IsTotal (Nat × Order) buyIdxLE where
  total a b := by
    unfold buyIdxLE
    rcases lt_trichotomy a.2.price b.2.price with h | h | h
    · exact Or.inr (Or.inl h)
    · rcases lt_trichotomy a.2.id b.2.id with h2 | h2 | h2
      · exact Or.inl (Or.inr ⟨h, Or.inl h2⟩)
      · rcases Nat.le_total a.1 b.1 with h3 | h3
        · exact Or.inl (Or.inr ⟨h, Or.inr ⟨h2, h3⟩⟩)
        · exact Or.inr (Or.inr ⟨h.symm, Or.inr ⟨h2.symm, h3⟩⟩)
      · exact Or.inr (Or.inr ⟨h.symm, Or.inl h2⟩)
    · exact Or.inl (Or.inl h)

instance : IsTrans (Nat × Order) buyIdxLE where
  trans a b c hab hbc := by
    unfold buyIdxLE at *
    rcases hab with h1 | ⟨h1, h1'⟩ <;> rcases hbc with h2 | ⟨h2, h2'⟩
    · exact Or.inl (h2.trans h1)
    · exact Or.inl (h2 ▸ h1)
    · exact Or.inl (h1 ▸ h2)
    · refine Or.inr ⟨h1.trans h2, ?_⟩
      rcases h1' with h3 | ⟨h3, h3'⟩ <;> rcases h2' with h4 | ⟨h4, h4'⟩
      · exact Or.inl (h3.trans h4)
      · exact Or.inl (h4 ▸ h3)
      · exact Or.inl (h3 ▸ h4)
      · exact Or.inr ⟨h3.trans h4, h3'.trans h4'⟩

/-- `_sorted_book` restricted to one side, with each order tagged by its
position in `order_book` (used by the matcher, which mutates the selected
best orders in place through aliasing). -/
def sortedIdx (side : String) (book : List Order) : List (Nat × Order) :=
  let sideOrders := (withIdxFrom 0 book).filter (fun p => p.2.side = side)
  if side = "buy" then List.insertionSort buyIdxLE sideOrders
  else List.insertionSort sellIdxLE sideOrders

/-- One iteration of the `while True` loop of `MarketEngine._match_orders`:
`none` when the loop breaks (one side empty, or best buy < best sell),
otherwise the state after one crossing.  `best_buy['size'] -= trade_size`
and `best_sell['size'] -= trade_size` mutate the selected dicts in place,
i.e. the book slots the sort heads came from; then zero-sized orders are
purged. -/
def matchStep (st : EngineState) : Option EngineState :=
  match sortedIdx "buy" st.orderBook, sortedIdx "sell" st.orderBook with
  | [], _ => none
  | _ :: _, [] => none
  | (i, bestBuy) :: _, (j, bestSell) :: _ =>
    if bestBuy.price < bestSell.price then none
    else
      let tradeSize := ratMin bestBuy.size bestSell.size
      let tradePrice := (bestBuy.price + bestSell.price) / 2
      let trade : Trade := ⟨tradePrice, tradeSize, st.tick⟩
      let book' :=
        ((st.orderBook.set i { bestBuy with size := bestBuy.size - tradeSize }).set
          j { bestSell with size := bestSell.size - tradeSize }).filter
          (fun o => 0 < o.size)
      some { st with
              orderBook := book'
              tradeHistory := st.tradeHistory ++ [trade] }

/-- Run up to `n` iterations of the matching loop, stopping when settled. -/
def matchN : Nat → EngineState → EngineState
  | 0, st => st
  | n + 1, st =>
    match matchStep st with
    | none => st
    | some st' => matchN n st'

/-- `MarketEngine._match_orders()`: the loop settles within `order_book.length`
iterations (each iteration purges at least one order — proved below), so
running that many iterations is the loop's fixed point. -/
def matchOrders (st : EngineState) : EngineState :=
  matchN st.orderBook.length st


/-- The `for real in self.order_book: if real['_id'] == o['_id']: real['size'] -= take; break`
scan: reduce the first order with the given id by `take` and stop. -/
def updateById (i : Nat) (take : ℚ) : List Order → List Order
  | [] => []
  | o :: rest =>
    if o.id = i then { o with size := o.size - take } :: rest
    else o :: updateById i take rest

/-- The sweep loop shared by `execute_market_order` (on the live book) and
`simulate_market_order` (on a copy): walk the passive orders in priority
order, take `min(qty_remaining, o['size'])` from each, accumulate notional
cost and executed size, and reduce the book entry with the matching id.
Returns `(total_cost, executed, book)`. -/
def sweepLoop : List Order → ℚ → ℚ → ℚ → List Order → ℚ × ℚ × List Order
  | [], _, cost, executed, book => (cost, executed, book)
  | o :: rest, qtyRemaining, cost, executed, book =>
    if qtyRemaining ≤ 0 then (cost, executed, book)
    else
      let take := ratMin qtyRemaining o.size
      sweepLoop rest (qtyRemaining - take) (cost + take * o.price)
        (executed + take) (updateById o.id take book)

/-- Result record of `execute_market_order`: `vwap` is Python `None`
(modelled `Option.none`) when nothing executed. -/
structure ExecResult where
  executed_size : ℚ
  unfilled_size : ℚ
  vwap : Option ℚ
deriving DecidableEq, Repr

/-- `MarketEngine.execute_market_order(side, quantity)`: sweep the passive
side of the live book in priority order, mutating it; purge zero-sized
orders; `vwap = total_cost / executed` when `executed > 0`, else `None`. -/
def executeMarketOrder (side : String) (quantity : ℚ) (st : EngineState) :
    EngineState × ExecResult :=
  let passiveSide := if side = "buy" then "sell" else "buy"
  let passive := sortedBook passiveSide st.orderBook
  let r := sweepLoop passive quantity 0 0 st.orderBook
  let executed := r.2.1
  ({ st with orderBook := r.2.2.filter (fun o => 0 < o.size) },
   { executed_size := executed
     unfilled_size := quantity - executed
     vwap := if 0 < executed then some (r.1 / executed) else none })

/-- Result record of `simulate_market_order`: the `execute_market_order`
fields plus the resulting hypothetical book. -/
structure SimResult where
  executed_size : ℚ
  unfilled_size : ℚ
  vwap : Option ℚ
  book : List Order
deriving DecidableEq, Repr

/-- `MarketEngine.simulate_market_order(side, quantity)` with `book=None`:
the same sweep run on `sim_book = [dict(o) for o in self.order_book]`, a
fresh value-copy of the live book (every engine order carries an `_id`, so
the copy is a `List Order`).  The engine state is never written. -/
def simulateMarketOrder (side : String) (quantity : ℚ) (st : EngineState) :
    SimResult :=
  let simBook := st.orderBook
  let passiveSide := if side = "buy" then "sell" else "buy"
  let passive := simBook.filter (fun o => o.side = passiveSide)
  let sortedPassive :=
    if passiveSide = "sell" then List.insertionSort sellLE passive
    else List.insertionSort buyLE passive
  let r := sweepLoop sortedPassive quantity 0 0 simBook
  let executed := r.2.1
  { executed_size := executed
    unfilled_size := quantity - executed
    vwap := if 0 < executed then some (r.1 / executed) else none
    book := r.2.2.filter (fun o => 0 < o.size) }

/-- Sell-side priority on caller-supplied records; after the missing-id check
every id is present, so `Option.getD` reads the actual id. -/
def rawSellLE (a b : RawOrder) : Prop :=
  a.price < b.price ∨ (a.price = b.price ∧ a.id.getD 0 ≤ b.id.getD 0)

/-- Buy-side priority on caller-supplied records. -/
def rawBuyLE (a b : RawOrder) : Prop :=
  b.price < a.price ∨ (a.price = b.price ∧ a.id.getD 0 ≤ b.id.getD 0)

instance : DecidableRel rawSellLE := fun a b =>
  inferInstanceAs (Decidable (a.price < b.price ∨ (a.price = b.price ∧ a.id.getD 0 ≤ b.id.getD 0)))

instance : DecidableRel rawBuyLE := fun a b =>
  inferInstanceAs (Decidable (b.price < a.price ∨ (a.price = b.price ∧ a.id.getD 0 ≤ b.id.getD 0)))

/-- The id-scan of the simulated sweep on caller-supplied records:
`real['_id'] == o['_id']` raises `KeyError` (modelled `none`) when a record
before the match lacks the `_id` key. -/
def reduceById (i : Nat) (take : ℚ) : List RawOrder → Option (List RawOrder)
  | [] => some []
  | o :: rest =>
    match o.id with
    | none => none
    | some j =>
      if j = i then some ({ o with size := o.size - take } :: rest)
      else (reduceById i take rest).map (o :: ·)

/-- The simulated sweep loop on caller-supplied records, threading possible
`KeyError` failures. -/
def rawSweepLoop : List RawOrder → ℚ → ℚ → ℚ → List RawOrder →
    Option (ℚ × ℚ × List RawOrder)
  | [], _, cost, executed, book => some (cost, executed, book)
  | o :: rest, qtyRemaining, cost, executed, book =>
    if qtyRemaining ≤ 0 then some (cost, executed, book)
    else
      let take := ratMin qtyRemaining o.size
      (reduceById (o.id.getD 0) take book).bind
        (rawSweepLoop rest (qtyRemaining - take) (cost + take * o.price)
          (executed + take))

/-- Result record of `simulate_market_order` on a caller-supplied book. -/
structure RawSimResult where
  executed_size : ℚ
  unfilled_size : ℚ
  vwap : Option ℚ
  book : List RawOrder
deriving DecidableEq, Repr

/-- `MarketEngine.simulate_market_order(side, quantity, book)` with a
caller-supplied `book`: works on `[dict(o) for o in book]`.  Sorting the
passive side by key `(price, _id)` evaluates `o['_id']` for every passive
record, so a single passive record without the internal `_id` key raises
`KeyError` (modelled as `none`). -/
def simulateMarketOrderWith (side : String) (quantity : ℚ)
    (book : List RawOrder) : Option RawSimResult :=
  let simBook := book
  let passiveSide := if side = "buy" then "sell" else "buy"
  let passive := simBook.filter (fun o => o.side = passiveSide)
  if passive.any (fun o => o.id.isNone) then none
  else
    let sortedPassive :=
      if passiveSide = "sell" then List.insertionSort rawSellLE passive
      else List.insertionSort rawBuyLE passive
    (rawSweepLoop sortedPassive quantity 0 0 simBook).map
      (fun (r : ℚ × ℚ × List RawOrder) =>
      { executed_size := r.2.1
        unfilled_size := quantity - r.2.1
        vwap := if 0 < r.2.1 then some (r.1 / r.2.1) else none
        book := r.2.2.filter (fun o => 0 < o.size) })

/-- The non-mutating sweep of `calculate_price_impact`: same take rule as
the other sweeps but nothing is written back.  Returns `(total_cost, filled)`. -/
def impactLoop : List Order → ℚ → ℚ → ℚ → ℚ × ℚ
  | [], _, cost, filled => (cost, filled)
  | o :: rest, qtyRemaining, cost, filled =>
    if qtyRemaining ≤ 0 then (cost, filled)
    else
      let take := ratMin qtyRemaining o.size
      impactLoop rest (qtyRemaining - take) (cost + take * o.price)
        (filled + take)

/-- `MarketEngine.calculate_price_impact(side, quantity)`: mid from the best
bid/ask of the live store; 0 when a side is missing; simulate a sweep of the
passive side without mutating; 0 when nothing fills; otherwise the slippage
of the average execution price from mid, in bps. -/
def calculatePriceImpact (side : String) (quantity : ℚ) (st : EngineState) :
    ℚ :=
  let bids := st.orderBook.filter (fun o => o.side = "buy")
  let asks := st.orderBook.filter (fun o => o.side = "sell")
  match (bids.map (fun o => o.price)).max?, (asks.map (fun o => o.price)).min? with
  | some bestBid, some bestAsk =>
    let mid := (bestBid + bestAsk) / 2
    let r :=
      if side = "buy" then
        impactLoop (List.insertionSort sellLE asks) quantity 0 0
      else
        impactLoop (List.insertionSort buyLE bids) quantity 0 0
    if r.2 = 0 then 0
    else
      let avgExecPrice := r.1 / r.2
      if side = "buy" then (avgExecPrice / mid - 1) * 10000
      else (1 - avgExecPrice / mid) * 10000
  | _, _ => 0

/-- One output row of `get_cumulative_depth`. -/
structure DepthRow where
  side : String
  price : ℚ
  cum_size : ℚ
deriving DecidableEq, Repr

/-- Total resting size of one side at one exact price (the pandas
`groupby('price')['size'].sum()` entry for that price). -/
def levelSum (side : String) (p : ℚ) (book : List Order) : ℚ :=
  ((book.filter (fun o => o.side = side ∧ o.price = p)).map
    (fun o => o.size)).sum

/-- Running cumulative sum down a side's price levels, in priority order. -/
def cumRows (side : String) (book : List Order) : List ℚ → ℚ → List DepthRow
  | [], _ => []
  | p :: rest, acc =>
    let c := acc + levelSum side p book
    ⟨side, p, c⟩ :: cumRows side book rest c

/-- The distinct price levels of one side, in the side's priority direction
(buy: descending, sell: ascending) — the sorted pandas group keys. -/
def sidePrices (side : String) (book : List Order) : List ℚ :=
  let prices := ((book.filter (fun o => o.side = side)).map
    (fun o => o.price)).dedup
  if side = "buy" then List.insertionSort (fun a b : ℚ => b ≤ a) prices
  else List.insertionSort (fun a b : ℚ => a ≤ b) prices

/-- The rows `get_cumulative_depth` emits for one side (empty when the side
has no orders — the `if s.empty: continue` branch). -/
def depthSide (side : String) (book : List Order) : List DepthRow :=
  if book.filter (fun o => o.side = side) = [] then []
  else cumRows side book (sidePrices side book) 0

/-- `MarketEngine.get_cumulative_depth()`: per side, group live orders by
exact price, sum sizes, sort levels in priority direction and emit the
running cumulative sum; buy rows first, then sell rows; empty book gives an
empty frame. -/
def getCumulativeDepth (st : EngineState) : List DepthRow :=
  if st.orderBook = [] then []
  else depthSide "buy" st.orderBook ++ depthSide "sell" st.orderBook

/-- State-passing wrapper for `simulate_market_order` with `book=None`: the
translation of the method body writes no engine field (it builds
`sim_book = [dict(o) for o in self.order_book]`, fresh copies, and mutates
only those), so the state component is returned untouched. -/
def simulateMarketOrderS (side : String) (quantity : ℚ) (st : EngineState) :
    EngineState × SimResult :=
  (st, simulateMarketOrder side quantity st)

/-- State-passing wrapper for `simulate_market_order` with a caller-supplied
book: again no engine field is written. -/
def simulateMarketOrderWithS (side : String) (quantity : ℚ)
    (book : List RawOrder) (st : EngineState) :
    EngineState × Option RawSimResult :=
  (st, simulateMarketOrderWith side quantity book)

/-- State-passing wrapper for `calculate_price_impact`: the method only
reads `self.order_book` (its sweep accumulates locals and writes nothing
back), so the state component is returned untouched. -/
def calculatePriceImpactS (side : String) (quantity : ℚ) (st : EngineState) :
    EngineState × ℚ :=
  (st, calculatePriceImpact side quantity st)

/-! ### Shared helper lemmas -/

theorem ratMin_eq_min (a b : ℚ) : ratMin a b = min a b := (min_def a b).symm

theorem ratMin_le_left (a b : ℚ) : ratMin a b ≤ a := by
  unfold ratMin; split
  · exact le_refl a
  · exact le_of_not_le (by assumption)

theorem ratMin_le_right (a b : ℚ) : ratMin a b ≤ b := by
  unfold ratMin; split
  · assumption
  · exact le_refl b

/-- Example book used by the concrete test scenarios: asks
105×1, 106×2, 107×3 (spec §8, "VWAP correctness"). -/
def asksBook : EngineState :=
  placeOrder "sell" 107 3 (placeOrder "sell" 106 2
    (placeOrder "sell" 105 1 (initEngine 100)))

/-! ### C6: place_order performs no validation -/

/-- Claim C6 counterexample: an order whose side is the junk string
`"frobnicate"` and whose size is negative is accepted by `place_order`: the
store changes (the order is appended with id 0) and no failure occurs, so
the claimed `InvalidOrder` rejection does not exist in the code. -/
theorem claim_C6_counterexample :
    (placeOrder "frobnicate" 1 (-1) (initEngine 100)).orderBook =
      [⟨"frobnicate", 1, -1, 0⟩] ∧
    (placeOrder "frobnicate" 1 (-1) (initEngine 100)).orderBook ≠
      (initEngine 100).orderBook := by
  constructor
  · rfl
  · simp [placeOrder, initEngine]

/-- Claim C6 (amended): `place_order` performs no validation at all: for
every order — any side string, any rational price and size, positive or
not — it appends the order stamped with the next sequence id, increments
the allocator, and performs no matching (trade log and tick untouched);
it never fails. -/
theorem claim_C6_place_order_no_validation (side : String) (price size : ℚ)
    (st : EngineState) :
    (placeOrder side price size st).orderBook =
      st.orderBook ++ [⟨side, price, size, st.nextId⟩] ∧
    (placeOrder side price size st).nextId = st.nextId + 1 ∧
    (placeOrder side price size st).tradeHistory = st.tradeHistory ∧
    (placeOrder side price size st).tick = st.tick :=
  ⟨rfl, rfl, rfl, rfl⟩

/-! ### C4: simulation and impact estimation never mutate the engine -/

/-- Claim C4: `simulate_market_order` (with or without a hypothetical book)
and `calculate_price_impact` leave every engine field — order book, trade
log, tick counter, id allocator, reference value and history — unchanged,
also under repeated/interleaved calls, and a later read-only call returns
the same result as if the earlier one had not happened.  In the embedding
the three methods are state-passing translations of the source bodies,
which write no engine field (the simulated sweep operates on
`[dict(o) for o in ...]` copies), so the state component is the input
state itself. -/
theorem claim_C4_read_only_frame (side side' : String) (q q' : ℚ)
    (book : List RawOrder) (st : EngineState) :
    (simulateMarketOrderS side q st).1 = st ∧
    (simulateMarketOrderWithS side q book st).1 = st ∧
    (calculatePriceImpactS side q st).1 = st ∧
    (simulateMarketOrderS side' q' (simulateMarketOrderS side q st).1).1 = st ∧
    (calculatePriceImpactS side' q' (calculatePriceImpactS side q st).1).1 = st ∧
    (simulateMarketOrderS side' q' (calculatePriceImpactS side q st).1).2 =
      (simulateMarketOrderS side' q' st).2 ∧
    (calculatePriceImpactS side' q' (simulateMarketOrderS side q st).1).2 =
      (calculatePriceImpactS side' q' st).2 :=
  ⟨rfl, rfl, rfl, rfl, rfl, rfl, rfl⟩

/-! ### C5: simulate with no book refines execute -/

/-- Claim C5: for every engine state, side and quantity,
`simulate_market_order` called without a hypothetical book returns the same
`executed_size`, `unfilled_size` and `vwap` as `execute_market_order` would
on that state, and the hypothetical book it returns is exactly the live
book as it would be after that `execute_market_order` (same orders, sizes
and ids). -/
theorem claim_C5_simulate_refines_execute (side : String) (q : ℚ)
    (st : EngineState) :
    (simulateMarketOrder side q st).executed_size =
      (executeMarketOrder side q st).2.executed_size ∧
    (simulateMarketOrder side q st).unfilled_size =
      (executeMarketOrder side q st).2.unfilled_size ∧
    (simulateMarketOrder side q st).vwap =
      (executeMarketOrder side q st).2.vwap ∧
    (simulateMarketOrder side q st).book =
      (executeMarketOrder side q st).1.orderBook := by
  by_cases hs : side = "buy" <;>
    simp [simulateMarketOrder, executeMarketOrder, sortedBook, hs]

/-! ### C10: a caller-supplied book must carry internal ids -/

/-- Claim C10 counterexample: a snapshot made of a single plain four-field
sell record (no internal `_id`) makes `simulate_market_order` fail (Python:
`KeyError` in the passive-side sort key), rather than return a result. -/
theorem claim_C10_counterexample :
    simulateMarketOrderWith "buy" 1 [⟨"sell", 105, 1, none⟩] = none := rfl

theorem reduceById_isSome (i : Nat) (t : ℚ) (b : List RawOrder)
    (h : ∀ o ∈ b, o.id.isSome) :
    ∃ b', reduceById i t b = some b' ∧ ∀ o ∈ b', o.id.isSome := by
  induction b with
  | nil => exact ⟨[], rfl, by simp⟩
  | cons o rest ih =>
    have ho : o.id.isSome := h o (by simp)
    obtain ⟨j, hj⟩ := Option.isSome_iff_exists.mp ho
    obtain ⟨b', hb', hall⟩ := ih (fun x hx => h x (by simp [hx]))
    by_cases hji : j = i
    · refine ⟨{ o with size := o.size - t } :: rest, ?_, ?_⟩
      · simp [reduceById, hj, hji]
      · intro x hx
        rcases List.mem_cons.mp hx with hx | hx
        · subst hx; simpa using ho
        · exact h x (by simp [hx])
    · refine ⟨o :: b', ?_, ?_⟩
      · simp [reduceById, hj, hji, hb']
      · intro x hx
        rcases List.mem_cons.mp hx with hx | hx
        · subst hx; exact ho
        · exact hall x hx

theorem rawSweepLoop_isSome (passive : List RawOrder) (q c e : ℚ)
    (b : List RawOrder) (h : ∀ o ∈ b, o.id.isSome) :
    (rawSweepLoop passive q c e b).isSome := by
  induction passive generalizing q c e b with
  | nil => simp [rawSweepLoop]
  | cons o rest ih =>
    by_cases hq : q ≤ 0
    · simp [rawSweepLoop, hq]
    · obtain ⟨b', hb', hall⟩ := reduceById_isSome (o.id.getD 0) (ratMin q o.size) b h
      simp only [rawSweepLoop, if_neg hq, hb', Option.bind_some]
      exact ih _ _ _ _ hall

/-- Claim C10 (amended): `simulate_market_order` on a caller-supplied order
list succeeds — returns a result rather than failing — provided every
record carries the engine-internal `_id` field; a passive-side record
without it makes the call fail (see the counterexample).  Plain four-field
records are ingested id-free only through `load_snapshot`, which stamps ids
itself. -/
theorem claim_C10_simulate_needs_ids (side : String) (q : ℚ)
    (book : List RawOrder) (h : ∀ o ∈ book, o.id.isSome) :
    (simulateMarketOrderWith side q book).isSome := by
  have hany : ∀ ps : String, (book.filter (fun o => o.side = ps)).any
      (fun o => o.id.isNone) = false := by
    intro ps
    rw [List.any_eq_false]
    intro o ho
    have hs := h o (List.mem_of_mem_filter ho)
    cases hoid : o.id with
    | none => rw [hoid] at hs; simp at hs
    | some j => simp [hoid]
  by_cases hs : side = "buy"
  · obtain ⟨r, hr⟩ := Option.isSome_iff_exists.mp
      (rawSweepLoop_isSome
        (List.insertionSort rawSellLE (book.filter (fun o => o.side = "sell")))
        q 0 0 book h)
    simp [simulateMarketOrderWith, hs, hany, hr]
  · obtain ⟨r, hr⟩ := Option.isSome_iff_exists.mp
      (rawSweepLoop_isSome
        (List.insertionSort rawBuyLE (book.filter (fun o => o.side = "buy")))
        q 0 0 book h)
    simp [simulateMarketOrderWith, hs, hany, hr]

/-- Claim C10 witness: with the id present the same one-record snapshot
sweeps fine. -/
theorem claim_C10_witness :
    (simulateMarketOrderWith "buy" 1 [⟨"sell", 105, 1, some 0⟩]).isSome :=
  claim_C10_simulate_needs_ids "buy" 1 [⟨"sell", 105, 1, some 0⟩] (by simp)

/-! ### C3: market sweep result fields -/

/-- Claim C3: `execute_market_order` consumes the passive side greedily in
priority order (its result is exactly the shared sweep loop on the
priority-sorted passive book, taking `min(remaining, size)` at each order);
`unfilled_size = requested − executed_size`; `vwap` is an explicit absent
value exactly when nothing executed, and `total_notional / executed_size`
otherwise.  Concretely, on asks {105×1, 106×2, 107×3} a market buy of 6
executes 6, leaves 0 unfilled, at vwap (105·1+106·2+107·3)/6. -/
theorem claim_C3_market_sweep (side : String) (q : ℚ) (st : EngineState) :
    (executeMarketOrder side q st).2.executed_size =
      (sweepLoop (sortedBook (if side = "buy" then "sell" else "buy")
        st.orderBook) q 0 0 st.orderBook).2.1 ∧
    (executeMarketOrder side q st).2.unfilled_size =
      q - (executeMarketOrder side q st).2.executed_size ∧
    ((executeMarketOrder side q st).2.vwap = none ↔
      (executeMarketOrder side q st).2.executed_size ≤ 0) ∧
    (0 < (executeMarketOrder side q st).2.executed_size →
      (executeMarketOrder side q st).2.vwap =
        some ((sweepLoop (sortedBook (if side = "buy" then "sell" else "buy")
            st.orderBook) q 0 0 st.orderBook).1 /
          (executeMarketOrder side q st).2.executed_size)) ∧
    (executeMarketOrder "buy" 6 asksBook).2 =
      { executed_size := 6, unfilled_size := 0,
        vwap := some ((105 * 1 + 106 * 2 + 107 * 3) / 6) } := by
  refine ⟨rfl, rfl, ?_, ?_, ?_⟩
  · by_cases h : 0 < (sweepLoop (sortedBook (if side = "buy" then "sell"
        else "buy") st.orderBook) q 0 0 st.orderBook).2.1 <;>
      simp [executeMarketOrder, h, not_lt.mpr, le_of_not_lt]
  · intro h
    simp only [executeMarketOrder] at h ⊢
    simp [h]
  · norm_num [executeMarketOrder, sweepLoop, updateById, sortedBook, sellLE,
      buyLE, List.insertionSort, List.orderedInsert, ratMin, asksBook,
      placeOrder, initEngine]

/-- Claim C3 witness: the vwap clause applied at the concrete example. -/
theorem claim_C3_witness :
    (executeMarketOrder "buy" 6 asksBook).2.vwap =
      some ((sweepLoop (sortedBook "sell" asksBook.orderBook) 6 0 0
          asksBook.orderBook).1 /
        (executeMarketOrder "buy" 6 asksBook).2.executed_size) := by
  have h := (claim_C3_market_sweep "buy" 6 asksBook).2.2.2.1 (by
    norm_num [executeMarketOrder, sweepLoop, updateById, sortedBook, sellLE,
      buyLE, List.insertionSort, List.orderedInsert, ratMin, asksBook,
      placeOrder, initEngine])
  simpa using h

/-! ### C7: price impact estimation -/

theorem impactLoop_eq_sweepLoop (passive : List Order) :
    ∀ (q c e : ℚ) (b : List Order),
      impactLoop passive q c e =
        ((sweepLoop passive q c e b).1, (sweepLoop passive q c e b).2.1) := by
  induction passive with
  | nil => intro q c e b; rfl
  | cons o rest ih =>
    intro q c e b
    by_cases hq : q ≤ 0
    · simp [impactLoop, sweepLoop, hq]
    · simp only [impactLoop, sweepLoop, if_neg hq]
      exact ih _ _ _ _

/-- Book used by the impact example: one bid at 99, asks
105×1, 106×2, 107×3 (the `test_price_impact` fixture). -/
def impactBook : EngineState :=
  placeOrder "sell" 107 3 (placeOrder "sell" 106 2
    (placeOrder "sell" 105 1 (placeOrder "buy" 99 1 (initEngine 100))))

/-- Claim C7: `calculate_price_impact` returns 0 when the book has no bids
or no asks; with both sides present it returns 0 when its simulated sweep
fills nothing, and otherwise `(avg/mid − 1)·10000` for a buy and
`(1 − avg/mid)·10000` for a sell, where `mid` is the midpoint of the best
bid and ask of the live store and `avg` is the average execution price of
the non-mutating sweep of the requested quantity; that sweep accumulates
exactly the same notional cost and executed size as the simulated market
sweep (`sweepLoop`, shared with `simulate_market_order` /
`execute_market_order`) on any book. -/
theorem claim_C7_impact_bps (side : String) (q : ℚ) (st : EngineState) :
    (st.orderBook.filter (fun o => o.side = "buy") = [] ∨
      st.orderBook.filter (fun o => o.side = "sell") = [] →
        calculatePriceImpact side q st = 0) ∧
    (∀ bb ba,
      ((st.orderBook.filter (fun o => o.side = "buy")).map
        (fun o => o.price)).max? = some bb →
      ((st.orderBook.filter (fun o => o.side = "sell")).map
        (fun o => o.price)).min? = some ba →
      ((if side = "buy"
          then impactLoop (List.insertionSort sellLE
            (st.orderBook.filter (fun o => o.side = "sell"))) q 0 0
          else impactLoop (List.insertionSort buyLE
            (st.orderBook.filter (fun o => o.side = "buy"))) q 0 0).2 = 0 →
        calculatePriceImpact side q st = 0) ∧
      (∀ cost filled,
        (if side = "buy"
          then impactLoop (List.insertionSort sellLE
            (st.orderBook.filter (fun o => o.side = "sell"))) q 0 0
          else impactLoop (List.insertionSort buyLE
            (st.orderBook.filter (fun o => o.side = "buy"))) q 0 0) =
          (cost, filled) →
        filled ≠ 0 →
        calculatePriceImpact side q st =
          if side = "buy" then (cost / filled / ((bb + ba) / 2) - 1) * 10000
          else (1 - cost / filled / ((bb + ba) / 2)) * 10000)) ∧
    (∀ (passive : List Order) (q' c e : ℚ) (b : List Order),
      impactLoop passive q' c e =
        ((sweepLoop passive q' c e b).1, (sweepLoop passive q' c e b).2.1)) := by
  refine ⟨?_, ?_, fun passive q' c e b => impactLoop_eq_sweepLoop passive q' c e b⟩
  · intro h
    rcases h with h | h <;> simp [calculatePriceImpact, h]
  · intro bb ba hbb hba
    constructor
    · intro h0
      by_cases hs : side = "buy" <;>
        simp_all [calculatePriceImpact, hbb, hba, hs]
    · intro cost filled hcf hne
      by_cases hs : side = "buy" <;>
        simp_all [calculatePriceImpact, hbb, hba, hs]

/-- Claim C7 witness: on the bid-99 / asks-105,106,107 book, a buy of 6
slips ((638/6)/102 − 1)·10000 bps. -/
theorem claim_C7_witness :
    calculatePriceImpact "buy" 6 impactBook =
      (638 / 6 / ((99 + 105) / 2) - 1) * 10000 := by
  have h := ((claim_C7_impact_bps "buy" 6 impactBook).2.1 99 105
    (by rfl) (by rfl)).2
    638 6
    (by norm_num [impactBook, placeOrder, initEngine, impactLoop, ratMin,
      List.insertionSort, List.orderedInsert, sellLE])
    (by norm_num)
  simpa using h

/-! ### Matching-loop infrastructure -/

/-- Total remaining size resting on one side of a book. -/
def sideSize (side : String) (book : List Order) : ℚ :=
  ((book.filter (fun o => o.side = side)).map (fun o => o.size)).sum

/-- Total size across a list of trade records. -/
def tradeSum (ts : List Trade) : ℚ :=
  (ts.map (fun t => t.size)).sum

theorem sideSize_nil (s : String) : sideSize s [] = 0 := rfl

theorem sideSize_cons (s : String) (o : Order) (l : List Order) :
    sideSize s (o :: l) = (if o.side = s then o.size else 0) + sideSize s l := by
  by_cases h : o.side = s <;> simp [sideSize, List.filter_cons, h]

theorem tradeSum_append (a b : List Trade) :
    tradeSum (a ++ b) = tradeSum a + tradeSum b := by
  simp [tradeSum]

theorem sideSize_set (s : String) (l : List Order) (k : Nat) (x : Order)
    (hk : k < l.length) :
    sideSize s (l.set k x) =
      sideSize s l - (if (l.get ⟨k, hk⟩).side = s then (l.get ⟨k, hk⟩).size else 0)
        + (if x.side = s then x.size else 0) := by
  induction l generalizing k with
  | nil => simp at hk
  | cons o rest ih =>
    cases k with
    | zero => simp [List.set, sideSize_cons]; ring
    | succ k' =>
      have hk' : k' < rest.length := Nat.lt_of_succ_lt_succ hk
      simp [List.set, sideSize_cons, ih k' hk']
      ring

theorem sideSize_filter_pos (s : String) (l : List Order)
    (h : ∀ o ∈ l, 0 ≤ o.size) :
    sideSize s (l.filter (fun o => 0 < o.size)) = sideSize s l := by
  induction l with
  | nil => rfl
  | cons o rest ih =>
    have ho := h o (by simp)
    have hrest := ih (fun x hx => h x (by simp [hx]))
    by_cases hp : 0 < o.size
    · simp [List.filter_cons, hp, sideSize_cons, hrest]
    · have h0 : o.size = 0 := le_antisymm (not_lt.mp hp) ho
      simp [List.filter_cons, hp, sideSize_cons, hrest, h0]

theorem length_filter_lt_of_mem {α : Type} (p : α → Bool) (l : List α)
    (x : α) (hx : x ∈ l) (hpx : ¬p x = true) :
    (l.filter p).length < l.length := by
  induction l with
  | nil => cases hx
  | cons o rest ih =>
    rcases List.mem_cons.mp hx with rfl | hx'
    · rw [List.filter_cons, if_neg hpx]
      exact Nat.lt_succ_of_le (List.length_filter_le p rest)
    · by_cases hp : p o = true
      · rw [List.filter_cons, if_pos hp]
        exact Nat.succ_lt_succ (ih hx')
      · rw [List.filter_cons, if_neg hp]
        exact Nat.lt_succ_of_lt (ih hx')

theorem withIdxFrom_mem {l : List Order} :
    ∀ {n k : Nat} {o : Order}, (k, o) ∈ withIdxFrom n l →
      ∃ m, k = n + m ∧ l.get? m = some o := by
  induction l with
  | nil => intro n k o h; simp [withIdxFrom] at h
  | cons x rest ih =>
    intro n k o h
    rcases List.mem_cons.mp h with heq | hmem
    · obtain ⟨h1, h2⟩ := Prod.mk.injEq .. ▸ heq
      exact ⟨0, by omega, by simp [h2.symm]⟩
    · obtain ⟨m, hm, hg⟩ := ih hmem
      exact ⟨m + 1, by omega, by simpa using hg⟩

theorem withIdxFrom_mem_zero {l : List Order} {k : Nat} {o : Order}
    (h : (k, o) ∈ withIdxFrom 0 l) : l.get? k = some o := by
  obtain ⟨m, hm, hg⟩ := withIdxFrom_mem h
  have : k = m := by omega
  rw [this]
  exact hg

theorem mem_withIdxFrom_of_mem {l : List Order} {o : Order} (h : o ∈ l) :
    ∀ n, ∃ k, (k, o) ∈ withIdxFrom n l := by
  induction l with
  | nil => cases h
  | cons x rest ih =>
    intro n
    rcases List.mem_cons.mp h with rfl | hx
    · exact ⟨n, by simp [withIdxFrom]⟩
    · obtain ⟨k, hk⟩ := ih hx (n + 1)
      exact ⟨k, by simp [withIdxFrom, hk]⟩

theorem buyIdxLE_refl (x : Nat × Order) : buyIdxLE x x :=
  Or.inr ⟨rfl, Or.inr ⟨rfl, le_refl _⟩⟩

theorem sellIdxLE_refl (x : Nat × Order) : sellIdxLE x x :=
  Or.inr ⟨rfl, Or.inr ⟨rfl, le_refl _⟩⟩

theorem buyIdxLE_toBuyLE {x y : Nat × Order} (h : buyIdxLE x y) :
    buyLE x.2 y.2 := by
  rcases h with h | ⟨h, h2⟩
  · exact Or.inl h
  · rcases h2 with h2 | ⟨h2, _⟩
    · exact Or.inr ⟨h, le_of_lt h2⟩
    · exact Or.inr ⟨h, le_of_eq h2⟩

theorem sellIdxLE_toSellLE {x y : Nat × Order} (h : sellIdxLE x y) :
    sellLE x.2 y.2 := by
  rcases h with h | ⟨h, h2⟩
  · exact Or.inl h
  · rcases h2 with h2 | ⟨h2, _⟩
    · exact Or.inr ⟨h, le_of_lt h2⟩
    · exact Or.inr ⟨h, le_of_eq h2⟩

theorem sortedIdx_buy_head {book : List Order} {x : Nat × Order}
    {tl : List (Nat × Order)} (h : sortedIdx "buy" book = x :: tl) :
    x ∈ withIdxFrom 0 book ∧ x.2.side = "buy" ∧
      ∀ y ∈ withIdxFrom 0 book, y.2.side = "buy" → buyIdxLE x y := by
  have hd : sortedIdx "buy" book = List.insertionSort buyIdxLE
      ((withIdxFrom 0 book).filter (fun p => p.2.side = "buy")) := by
    simp [sortedIdx]
  rw [hd] at h
  have hperm := List.perm_insertionSort buyIdxLE
    ((withIdxFrom 0 book).filter (fun p => p.2.side = "buy"))
  have hsorted := List.sorted_insertionSort buyIdxLE
    ((withIdxFrom 0 book).filter (fun p => p.2.side = "buy"))
  rw [h] at hperm hsorted
  have hxf : x ∈ (withIdxFrom 0 book).filter (fun p => p.2.side = "buy") :=
    hperm.mem_iff.mp (by simp)
  have hxm := List.mem_filter.mp hxf
  refine ⟨hxm.1, by simpa using hxm.2, ?_⟩
  intro y hy hyside
  have hyf : y ∈ (withIdxFrom 0 book).filter (fun p => p.2.side = "buy") :=
    List.mem_filter.mpr ⟨hy, by simp [hyside]⟩
  rcases List.mem_cons.mp (hperm.symm.mem_iff.mp hyf) with rfl | hytl
  · exact buyIdxLE_refl _
  · exact List.rel_of_sorted_cons hsorted y hytl

theorem sortedIdx_sell_head {book : List Order} {x : Nat × Order}
    {tl : List (Nat × Order)} (h : sortedIdx "sell" book = x :: tl) :
    x ∈ withIdxFrom 0 book ∧ x.2.side = "sell" ∧
      ∀ y ∈ withIdxFrom 0 book, y.2.side = "sell" → sellIdxLE x y := by
  have hd : sortedIdx "sell" book = List.insertionSort sellIdxLE
      ((withIdxFrom 0 book).filter (fun p => p.2.side = "sell")) := by
    simp [sortedIdx]
  rw [hd] at h
  have hperm := List.perm_insertionSort sellIdxLE
    ((withIdxFrom 0 book).filter (fun p => p.2.side = "sell"))
  have hsorted := List.sorted_insertionSort sellIdxLE
    ((withIdxFrom 0 book).filter (fun p => p.2.side = "sell"))
  rw [h] at hperm hsorted
  have hxf : x ∈ (withIdxFrom 0 book).filter (fun p => p.2.side = "sell") :=
    hperm.mem_iff.mp (by simp)
  have hxm := List.mem_filter.mp hxf
  refine ⟨hxm.1, by simpa using hxm.2, ?_⟩
  intro y hy hyside
  have hyf : y ∈ (withIdxFrom 0 book).filter (fun p => p.2.side = "sell") :=
    List.mem_filter.mpr ⟨hy, by simp [hyside]⟩
  rcases List.mem_cons.mp (hperm.symm.mem_iff.mp hyf) with rfl | hytl
  · exact sellIdxLE_refl _
  · exact List.rel_of_sorted_cons hsorted y hytl

/-- Master characterization of one matching iteration: when the loop body
runs, it selects the priority-best buy and sell (best = priority-least under
the side's order, i.e. highest-price earliest-id buy and lowest-price
earliest-id sell), which cross (`best_sell.price ≤ best_buy.price`); it
appends one trade of size `min` of the two remaining sizes at the midpoint
price stamped with the current tick, decrements both orders in place, and
purges the non-positive remainder. -/
theorem matchStep_some_spec {st st' : EngineState}
    (h : matchStep st = some st') :
    ∃ i j bb bs,
      st.orderBook.get? i = some bb ∧ st.orderBook.get? j = some bs ∧
      bb.side = "buy" ∧ bs.side = "sell" ∧ i ≠ j ∧
      bs.price ≤ bb.price ∧
      (∀ o ∈ st.orderBook, o.side = "buy" → buyLE bb o) ∧
      (∀ o ∈ st.orderBook, o.side = "sell" → sellLE bs o) ∧
      st' = { st with
        orderBook :=
          ((st.orderBook.set i
              { bb with size := bb.size - ratMin bb.size bs.size }).set j
            { bs with size := bs.size - ratMin bb.size bs.size }).filter
            (fun o => 0 < o.size)
        tradeHistory := st.tradeHistory ++
          [⟨(bb.price + bs.price) / 2, ratMin bb.size bs.size, st.tick⟩] } := by
  unfold matchStep at h
  cases hbuys : sortedIdx "buy" st.orderBook with
  | nil => rw [hbuys] at h; cases h
  | cons xb tlb =>
    cases hsells : sortedIdx "sell" st.orderBook with
    | nil => rw [hbuys, hsells] at h; cases h
    | cons xs tls =>
      obtain ⟨ib, bb⟩ := xb
      obtain ⟨js, bs⟩ := xs
      simp only [hbuys, hsells] at h
      obtain ⟨hb1, hb2, hb3⟩ := sortedIdx_buy_head hbuys
      obtain ⟨hs1, hs2, hs3⟩ := sortedIdx_sell_head hsells
      dsimp only at hb2 hs2
      by_cases hp : bb.price < bs.price
      · rw [if_pos hp] at h; cases h
      · rw [if_neg hp] at h
        have hgb : st.orderBook.get? ib = some bb := withIdxFrom_mem_zero hb1
        have hgs : st.orderBook.get? js = some bs := withIdxFrom_mem_zero hs1
        refine ⟨ib, js, bb, bs, hgb, hgs, hb2, hs2, ?_, not_lt.mp hp,
          ?_, ?_, ?_⟩
        · intro hij
          rw [hij, hgs] at hgb
          injection hgb with hv
          rw [hv] at hs2
          rw [hb2] at hs2
          exact absurd hs2 (by decide)
        · intro o ho hos
          obtain ⟨k, hk⟩ := mem_withIdxFrom_of_mem ho 0
          exact buyIdxLE_toBuyLE (hb3 (k, o) hk hos)
        · intro o ho hos
          obtain ⟨k, hk⟩ := mem_withIdxFrom_of_mem ho 0
          exact sellIdxLE_toSellLE (hs3 (k, o) hk hos)
        · injection h with h'
          exact h'.symm

theorem get?_set_self {α : Type} (l : List α) (i : Nat) (a : α)
    (h : i < l.length) : (l.set i a).get? i = some a := by
  induction l generalizing i with
  | nil => simp at h
  | cons x rest ih =>
    cases i with
    | zero => rfl
    | succ i' => simpa using ih i' (Nat.lt_of_succ_lt_succ h)

theorem get?_set_ne {α : Type} (l : List α) (i j : Nat) (a : α)
    (h : i ≠ j) : (l.set i a).get? j = l.get? j := by
  induction l generalizing i j with
  | nil => simp
  | cons x rest ih =>
    cases i with
    | zero =>
      cases j with
      | zero => exact absurd rfl h
      | succ j' => rfl
    | succ i' =>
      cases j with
      | zero => rfl
      | succ j' => simpa using ih i' j' (fun hc => h (by rw [hc]))

theorem sideSize_set_get? (s : String) (l : List Order) (k : Nat) (x o0 : Order)
    (h : l.get? k = some o0) :
    sideSize s (l.set k x) =
      sideSize s l - (if o0.side = s then o0.size else 0)
        + (if x.side = s then x.size else 0) := by
  obtain ⟨hk, hget⟩ := List.get?_eq_some.mp h
  have hs := sideSize_set s l k x hk
  rw [hget] at hs
  exact hs

theorem matchStep_pos {st st' : EngineState} (h : matchStep st = some st') :
    ∀ o ∈ st'.orderBook, 0 < o.size := by
  obtain ⟨i, j, bb, bs, hgi, hgj, hbside, hsside, hij, hprice, hb, hsp, hst⟩ :=
    matchStep_some_spec h
  subst hst
  intro o ho
  have hm := List.mem_filter.mp ho
  simpa using hm.2

theorem matchStep_book_shrinks {st st' : EngineState}
    (h : matchStep st = some st') :
    st'.orderBook.length < st.orderBook.length := by
  obtain ⟨i, j, bb, bs, hgi, hgj, hbside, hsside, hij, hprice, hb, hsp, hst⟩ :=
    matchStep_some_spec h
  obtain ⟨hi, hgeti⟩ := List.get?_eq_some.mp hgi
  obtain ⟨hj, hgetj⟩ := List.get?_eq_some.mp hgj
  subst hst
  have hlenL : ((st.orderBook.set i
      { bb with size := bb.size - ratMin bb.size bs.size }).set j
      { bs with size := bs.size - ratMin bb.size bs.size }).length =
      st.orderBook.length := by simp
  by_cases hbs : bb.size ≤ bs.size
  · have ht : ratMin bb.size bs.size = bb.size := if_pos hbs
    have hmem : ({ bb with size := bb.size - ratMin bb.size bs.size } : Order) ∈
        ((st.orderBook.set i
          { bb with size := bb.size - ratMin bb.size bs.size }).set j
          { bs with size := bs.size - ratMin bb.size bs.size }) := by
      have hq : ((st.orderBook.set i
          { bb with size := bb.size - ratMin bb.size bs.size }).set j
          { bs with size := bs.size - ratMin bb.size bs.size }).get? i =
          some { bb with size := bb.size - ratMin bb.size bs.size } := by
        rw [get?_set_ne _ j i _ (Ne.symm hij),
          get?_set_self _ i _ (by simpa using hi)]
      exact List.get?_mem hq
    have hnp : ¬(decide (0 < ({ bb with size := bb.size - ratMin bb.size bs.size } :
        Order).size) = true) := by
      simp [ht]
    calc (((st.orderBook.set i _).set j _).filter
          (fun o => decide (0 < o.size))).length
        < ((st.orderBook.set i _).set j _).length :=
          length_filter_lt_of_mem _ _ _ hmem hnp
      _ = st.orderBook.length := hlenL
  · have ht : ratMin bb.size bs.size = bs.size := if_neg hbs
    have hmem : ({ bs with size := bs.size - ratMin bb.size bs.size } : Order) ∈
        ((st.orderBook.set i
          { bb with size := bb.size - ratMin bb.size bs.size }).set j
          { bs with size := bs.size - ratMin bb.size bs.size }) := by
      have hq : ((st.orderBook.set i
          { bb with size := bb.size - ratMin bb.size bs.size }).set j
          { bs with size := bs.size - ratMin bb.size bs.size }).get? j =
          some { bs with size := bs.size - ratMin bb.size bs.size } := by
        rw [get?_set_self _ j _ (by simpa using hj)]
      exact List.get?_mem hq
    have hnp : ¬(decide (0 < ({ bs with size := bs.size - ratMin bb.size bs.size } :
        Order).size) = true) := by
      simp [ht]
    calc (((st.orderBook.set i _).set j _).filter
          (fun o => decide (0 < o.size))).length
        < ((st.orderBook.set i _).set j _).length :=
          length_filter_lt_of_mem _ _ _ hmem hnp
      _ = st.orderBook.length := hlenL

theorem matchStep_conservation {st st' : EngineState}
    (h : matchStep st = some st') (hpos : ∀ o ∈ st.orderBook, 0 < o.size) :
    ∃ tr : Trade, st'.tradeHistory = st.tradeHistory ++ [tr] ∧
      tradeSum st'.tradeHistory = tradeSum st.tradeHistory + tr.size ∧
      sideSize "buy" st.orderBook - sideSize "buy" st'.orderBook = tr.size ∧
      sideSize "sell" st.orderBook - sideSize "sell" st'.orderBook = tr.size := by
  obtain ⟨i, j, bb, bs, hgi, hgj, hbside, hsside, hij, hprice, hb, hsp, hst⟩ :=
    matchStep_some_spec h
  subst hst
  have htb : ratMin bb.size bs.size ≤ bb.size := ratMin_le_left _ _
  have hts : ratMin bb.size bs.size ≤ bs.size := ratMin_le_right _ _
  refine ⟨⟨(bb.price + bs.price) / 2, ratMin bb.size bs.size, st.tick⟩, rfl,
    ?_, ?_, ?_⟩
  · rw [tradeSum_append]; simp [tradeSum]
  · have hLpos : ∀ o ∈ ((st.orderBook.set i
        { bb with size := bb.size - ratMin bb.size bs.size }).set j
        { bs with size := bs.size - ratMin bb.size bs.size }), 0 ≤ o.size := by
      intro o ho
      rcases List.mem_or_eq_of_mem_set ho with ho' | rfl
      · rcases List.mem_or_eq_of_mem_set ho' with ho'' | rfl
        · exact le_of_lt (hpos o ho'')
        · simpa using sub_nonneg.mpr htb
      · simpa using sub_nonneg.mpr hts
    have hgj2 : (st.orderBook.set i
        { bb with size := bb.size - ratMin bb.size bs.size }).get? j = some bs := by
      rw [get?_set_ne _ i j _ hij]; exact hgj
    have h1 := sideSize_set_get? "buy" st.orderBook i
      { bb with size := bb.size - ratMin bb.size bs.size } bb hgi
    have h2 := sideSize_set_get? "buy" (st.orderBook.set i
      { bb with size := bb.size - ratMin bb.size bs.size }) j
      { bs with size := bs.size - ratMin bb.size bs.size } bs hgj2
    rw [sideSize_filter_pos _ _ hLpos, h2, h1]
    simp [hbside, hsside]
  · have hLpos : ∀ o ∈ ((st.orderBook.set i
        { bb with size := bb.size - ratMin bb.size bs.size }).set j
        { bs with size := bs.size - ratMin bb.size bs.size }), 0 ≤ o.size := by
      intro o ho
      rcases List.mem_or_eq_of_mem_set ho with ho' | rfl
      · rcases List.mem_or_eq_of_mem_set ho' with ho'' | rfl
        · exact le_of_lt (hpos o ho'')
        · simpa using sub_nonneg.mpr htb
      · simpa using sub_nonneg.mpr hts
    have hgj2 : (st.orderBook.set i
        { bb with size := bb.size - ratMin bb.size bs.size }).get? j = some bs := by
      rw [get?_set_ne _ i j _ hij]; exact hgj
    have h1 := sideSize_set_get? "sell" st.orderBook i
      { bb with size := bb.size - ratMin bb.size bs.size } bb hgi
    have h2 := sideSize_set_get? "sell" (st.orderBook.set i
      { bb with size := bb.size - ratMin bb.size bs.size }) j
      { bs with size := bs.size - ratMin bb.size bs.size } bs hgj2
    rw [sideSize_filter_pos _ _ hLpos, h2, h1]
    simp [hbside, hsside]

theorem matchN_settled {st : EngineState} (h : matchStep st = none) :
    ∀ n, matchN n st = st := by
  intro n
  cases n with
  | zero => rfl
  | succ n => simp [matchN, h]

theorem matchStep_nil {st : EngineState} (h : st.orderBook = []) :
    matchStep st = none := by
  unfold matchStep
  have hb : sortedIdx "buy" st.orderBook = [] := by
    simp [sortedIdx, h, withIdxFrom]
  rw [hb]

theorem matchN_spec (fuel : Nat) : ∀ st : EngineState,
    st.orderBook.length ≤ fuel → ∀ n, st.orderBook.length ≤ n →
      matchN n st = matchN st.orderBook.length st ∧
        matchStep (matchN st.orderBook.length st) = none := by
  induction fuel with
  | zero =>
    intro st hst n hn
    have hb : st.orderBook = [] := List.length_eq_zero.mp (Nat.le_zero.mp hst)
    have hnone := matchStep_nil hb
    rw [matchN_settled hnone, matchN_settled hnone]
    exact ⟨rfl, hnone⟩
  | succ fuel ih =>
    intro st hst n hn
    cases hstep : matchStep st with
    | none =>
      rw [matchN_settled hstep, matchN_settled hstep]
      exact ⟨rfl, hstep⟩
    | some st' =>
      have hlt := matchStep_book_shrinks hstep
      have hpos1 : 1 ≤ st.orderBook.length := by omega
      have hL : st.orderBook.length = (st.orderBook.length - 1) + 1 := by omega
      have hn1 : n = (n - 1) + 1 := by omega
      have e1 : matchN st.orderBook.length st =
          matchN (st.orderBook.length - 1) st' := by
        rw [hL]; simp [matchN, hstep]
      have e2 : matchN n st = matchN (n - 1) st' := by
        rw [hn1]; simp [matchN, hstep]
      have hfit : st'.orderBook.length ≤ fuel := by omega
      obtain ⟨f1, f2⟩ := ih st' hfit (st.orderBook.length - 1) (by omega)
      obtain ⟨g1, _⟩ := ih st' hfit (n - 1) (by omega)
      refine ⟨?_, ?_⟩
      · rw [e1, e2, f1, g1]
      · rw [e1, f1]
        exact f2

/-- Claim C9: the matching loop terminates.  Every iteration of the loop
body strictly shrinks the book (the min-size order of the crossing pair is
purged), so the pass settles within `order_book.length` iterations: running
any fuel at least the book length gives the loop's fixed point
(`matchOrders`), and that state admits no further crossing. -/
theorem claim_C9_matching_terminates (st : EngineState) :
    (∀ st', matchStep st = some st' →
      st'.orderBook.length < st.orderBook.length) ∧
    (∀ n, st.orderBook.length ≤ n →
      matchN n st = matchOrders st ∧ matchStep (matchOrders st) = none) := by
  refine ⟨fun st' h => matchStep_book_shrinks h, fun n hn => ?_⟩
  obtain ⟨h1, h2⟩ := matchN_spec st.orderBook.length st (le_refl _) n hn
  exact ⟨h1, h2⟩

/-- Claim C9 witness: a concrete crossing book (one bid 106×4 against one
ask 105×1) settles with fuel 5 ≥ 2 = book length, and the settled state
admits no further step. -/
theorem claim_C9_witness :
    matchN 5 (placeOrder "buy" 106 4 (placeOrder "sell" 105 1
        (initEngine 100))) =
      matchOrders (placeOrder "buy" 106 4 (placeOrder "sell" 105 1
        (initEngine 100))) ∧
    matchStep (matchOrders (placeOrder "buy" 106 4 (placeOrder "sell" 105 1
        (initEngine 100)))) = none :=
  (claim_C9_matching_terminates _).2 5 (by
    norm_num [placeOrder, initEngine])

theorem matchN_conservation (n : Nat) : ∀ st : EngineState,
    (∀ o ∈ st.orderBook, 0 < o.size) →
      (∃ ts, (matchN n st).tradeHistory = st.tradeHistory ++ ts) ∧
      tradeSum (matchN n st).tradeHistory - tradeSum st.tradeHistory =
        sideSize "buy" st.orderBook - sideSize "buy" (matchN n st).orderBook ∧
      tradeSum (matchN n st).tradeHistory - tradeSum st.tradeHistory =
        sideSize "sell" st.orderBook - sideSize "sell" (matchN n st).orderBook := by
  induction n with
  | zero =>
    intro st hpos
    exact ⟨⟨[], by simp [matchN]⟩, by simp [matchN], by simp [matchN]⟩
  | succ n ih =>
    intro st hpos
    cases hstep : matchStep st with
    | none =>
      simp only [matchN, hstep]
      exact ⟨⟨[], by simp⟩, by simp, by simp⟩
    | some st' =>
      obtain ⟨tr, htr, hts, hbuy, hsell⟩ := matchStep_conservation hstep hpos
      obtain ⟨⟨ts, hts2⟩, h1, h2⟩ := ih st' (matchStep_pos hstep)
      simp only [matchN, hstep]
      refine ⟨⟨[tr] ++ ts, by rw [hts2, htr, List.append_assoc]⟩, ?_, ?_⟩
      · rw [hts] at h1
        linarith [h1, hbuy]
      · rw [hts] at h2
        linarith [h2, hsell]

/-- Claim C2: on a book whose resting orders all have positive remaining
size, a full matching pass conserves volume — the total size of the trade
records it appends equals the decrease of total remaining buy-side size and
also the decrease of total remaining sell-side size. -/
theorem claim_C2_conservation (st : EngineState)
    (hpos : ∀ o ∈ st.orderBook, 0 < o.size) :
    (∃ ts, (matchOrders st).tradeHistory = st.tradeHistory ++ ts) ∧
    tradeSum (matchOrders st).tradeHistory - tradeSum st.tradeHistory =
      sideSize "buy" st.orderBook - sideSize "buy" (matchOrders st).orderBook ∧
    tradeSum (matchOrders st).tradeHistory - tradeSum st.tradeHistory =
      sideSize "sell" st.orderBook -
        sideSize "sell" (matchOrders st).orderBook :=
  matchN_conservation st.orderBook.length st hpos

/-- Claim C2 witness: the two-sell/one-buy book from the time-priority
scenario satisfies the positivity hypothesis and conserves volume. -/
theorem claim_C2_witness :
    (∃ ts, (matchOrders (placeOrder "buy" 106 4 (placeOrder "sell" 105 3
        (placeOrder "sell" 105 3 (initEngine 100))))).tradeHistory =
      (placeOrder "buy" 106 4 (placeOrder "sell" 105 3
        (placeOrder "sell" 105 3 (initEngine 100)))).tradeHistory ++ ts) ∧
    tradeSum (matchOrders (placeOrder "buy" 106 4 (placeOrder "sell" 105 3
        (placeOrder "sell" 105 3 (initEngine 100))))).tradeHistory -
      tradeSum (placeOrder "buy" 106 4 (placeOrder "sell" 105 3
        (placeOrder "sell" 105 3 (initEngine 100)))).tradeHistory =
      sideSize "buy" (placeOrder "buy" 106 4 (placeOrder "sell" 105 3
        (placeOrder "sell" 105 3 (initEngine 100)))).orderBook -
        sideSize "buy" (matchOrders (placeOrder "buy" 106 4
          (placeOrder "sell" 105 3 (placeOrder "sell" 105 3
            (initEngine 100))))).orderBook ∧
    tradeSum (matchOrders (placeOrder "buy" 106 4 (placeOrder "sell" 105 3
        (placeOrder "sell" 105 3 (initEngine 100))))).tradeHistory -
      tradeSum (placeOrder "buy" 106 4 (placeOrder "sell" 105 3
        (placeOrder "sell" 105 3 (initEngine 100)))).tradeHistory =
      sideSize "sell" (placeOrder "buy" 106 4 (placeOrder "sell" 105 3
        (placeOrder "sell" 105 3 (initEngine 100)))).orderBook -
        sideSize "sell" (matchOrders (placeOrder "buy" 106 4
          (placeOrder "sell" 105 3 (placeOrder "sell" 105 3
            (initEngine 100))))).orderBook :=
  claim_C2_conservation _ (by
    intro o ho
    simp [placeOrder, initEngine] at ho
    rcases ho with rfl | rfl | rfl <;> norm_num)

/-- The time-priority scenario book: sells A (size 3) then B (size 3), both
at 105, then a buy of size 4 at price `p`. -/
def timePriorityBook (p : ℚ) : EngineState :=
  placeOrder "buy" p 4 (placeOrder "sell" 105 3 (placeOrder "sell" 105 3
    (initEngine 100)))

/-- Claim C1: a matching pass repeatedly crosses the priority-best buy
(maximum price, earlier id on ties) against the priority-best sell (minimum
price, earlier id on ties) while best-buy price ≥ best-sell price; every
crossing trades `min` of the two remaining sizes at the midpoint of the two
order prices, decrements both orders, purges anything at zero, and appends
one trade stamped with the current tick.  In the time-priority scenario
(sells A then B of size 3 at 105, one buy of size 4 at any price ≥ 105) the
trades have sizes [3, 1] in that order and only B, with size 2, rests
afterwards. -/
theorem claim_C1_matching_pass :
    (∀ st st' : EngineState, matchStep st = some st' →
      ∃ i j bb bs,
        st.orderBook.get? i = some bb ∧ st.orderBook.get? j = some bs ∧
        bb.side = "buy" ∧ bs.side = "sell" ∧ i ≠ j ∧
        bs.price ≤ bb.price ∧
        (∀ o ∈ st.orderBook, o.side = "buy" → buyLE bb o) ∧
        (∀ o ∈ st.orderBook, o.side = "sell" → sellLE bs o) ∧
        st' = { st with
          orderBook :=
            ((st.orderBook.set i
                { bb with size := bb.size - ratMin bb.size bs.size }).set j
              { bs with size := bs.size - ratMin bb.size bs.size }).filter
              (fun o => 0 < o.size)
          tradeHistory := st.tradeHistory ++
            [⟨(bb.price + bs.price) / 2, ratMin bb.size bs.size,
              st.tick⟩] }) ∧
    (∀ p : ℚ, 105 ≤ p →
      (matchOrders (timePriorityBook p)).tradeHistory.map (fun t => t.size) =
        [3, 1] ∧
      (matchOrders (timePriorityBook p)).orderBook = [⟨"sell", 105, 2, 1⟩]) := by
  refine ⟨fun st st' h => matchStep_some_spec h, fun p hp => ?_⟩
  have hnp : ¬(p < 105) := not_lt.mpr hp
  norm_num [matchOrders, matchN, matchStep, sortedIdx, withIdxFrom, sellIdxLE,
    buyIdxLE, List.insertionSort, List.orderedInsert, ratMin,
    timePriorityBook, placeOrder, initEngine, hnp]

/-- Claim C1 witness: the scenario at buy price 106. -/
theorem claim_C1_witness :
    (matchOrders (timePriorityBook 106)).tradeHistory.map (fun t => t.size) =
      [3, 1] ∧
    (matchOrders (timePriorityBook 106)).orderBook = [⟨"sell", 105, 2, 1⟩] :=
  claim_C1_matching_pass.2 106 (by norm_num)

/-! ### Depth analytics lemmas -/

instance : IsTotal ℚ (fun a b : ℚ => b ≤ a) := ⟨fun a b => le_total b a⟩

instance : IsTrans ℚ (fun a b : ℚ => b ≤ a) := ⟨fun _ _ _ h1 h2 => le_trans h2 h1⟩

instance : IsTotal ℚ (fun a b : ℚ => a ≤ b) := ⟨fun a b => le_total a b⟩

instance : IsTrans ℚ (fun a b : ℚ => a ≤ b) := ⟨fun _ _ _ h1 h2 => le_trans h1 h2⟩

theorem levelSum_cons (s : String) (p : ℚ) (o : Order) (l : List Order) :
    levelSum s p (o :: l) =
      (if o.side = s ∧ o.price = p then o.size else 0) + levelSum s p l := by
  by_cases h : o.side = s ∧ o.price = p <;> simp [levelSum, List.filter_cons, h]

theorem levelSum_nonneg (s : String) (p : ℚ) (l : List Order)
    (h : ∀ o ∈ l, 0 ≤ o.size) : 0 ≤ levelSum s p l := by
  induction l with
  | nil => simp [levelSum]
  | cons o rest ih =>
    rw [levelSum_cons]
    have h1 := h o (by simp)
    have h2 := ih (fun x hx => h x (by simp [hx]))
    by_cases hc : o.side = s ∧ o.price = p
    · rw [if_pos hc]; linarith
    · rw [if_neg hc]; linarith

theorem cumRows_map_price (s : String) (book : List Order) :
    ∀ (ps : List ℚ) (acc : ℚ),
      (cumRows s book ps acc).map (fun r => r.price) = ps := by
  intro ps
  induction ps with
  | nil => intro acc; rfl
  | cons p rest ih => intro acc; simp [cumRows, ih]

theorem cumRows_chain (s : String) (book : List Order)
    (h : ∀ o ∈ book, 0 ≤ o.size) :
    ∀ (ps : List ℚ) (acc : ℚ),
      List.Chain' (fun a b : DepthRow => a.cum_size ≤ b.cum_size)
        (cumRows s book ps acc) := by
  intro ps
  induction ps with
  | nil => intro acc; simp [cumRows]
  | cons p rest ih =>
    intro acc
    cases rest with
    | nil => simp [cumRows]
    | cons p2 rest2 =>
      rw [cumRows, cumRows]
      refine List.Chain'.cons ?_ ?_
      · have := levelSum_nonneg s p2 book h
        simp only []
        linarith
      · rw [← cumRows]
        exact ih _

theorem sidePrices_nodup (s : String) (book : List Order) :
    (sidePrices s book).Nodup := by
  unfold sidePrices
  by_cases h : s = "buy"
  · rw [if_pos h]
    exact (List.perm_insertionSort _ _).nodup_iff.mpr (List.nodup_dedup _)
  · rw [if_neg h]
    exact (List.perm_insertionSort _ _).nodup_iff.mpr (List.nodup_dedup _)

theorem sidePrices_mem (s : String) (book : List Order) (o : Order)
    (ho : o ∈ book) (hs : o.side = s) : o.price ∈ sidePrices s book := by
  have hm : o.price ∈ ((book.filter (fun x => x.side = s)).map
      (fun x => x.price)).dedup := by
    rw [List.mem_dedup]
    exact List.mem_map.mpr ⟨o, List.mem_filter.mpr ⟨ho, by simp [hs]⟩, rfl⟩
  unfold sidePrices
  by_cases h : s = "buy"
  · subst h
    rw [if_pos rfl]
    exact (List.perm_insertionSort _ _).mem_iff.mpr hm
  · rw [if_neg h]
    exact (List.perm_insertionSort _ _).mem_iff.mpr hm

theorem sidePrices_sorted_buy (book : List Order) :
    List.Sorted (fun a b : ℚ => b < a) (sidePrices "buy" book) := by
  have hs : List.Sorted (fun a b : ℚ => b ≤ a) (sidePrices "buy" book) := by
    unfold sidePrices
    simp only [reduceIte]
    exact List.sorted_insertionSort _ _
  have hn : (sidePrices "buy" book).Nodup := sidePrices_nodup _ _
  exact (List.Pairwise.and hs hn).imp
    (fun h => lt_of_le_of_ne h.1 (Ne.symm h.2))

theorem sidePrices_sorted_sell (book : List Order) :
    List.Sorted (fun a b : ℚ => a < b) (sidePrices "sell" book) := by
  have hs : List.Sorted (fun a b : ℚ => a ≤ b) (sidePrices "sell" book) := by
    unfold sidePrices
    simp only [reduceIte]
    exact List.sorted_insertionSort _ _
  have hn : (sidePrices "sell" book).Nodup := sidePrices_nodup _ _
  exact (List.Pairwise.and hs hn).imp
    (fun h => lt_of_le_of_ne h.1 h.2)

theorem levelSplit_ge (s : String) (p : ℚ) (book : List Order) :
    ((book.filter (fun o => o.side = s ∧ p ≤ o.price)).map
      (fun o => o.size)).sum =
    levelSum s p book +
      ((book.filter (fun o => o.side = s ∧ p < o.price)).map
        (fun o => o.size)).sum := by
  induction book with
  | nil => simp [levelSum]
  | cons o rest ih =>
    rw [levelSum_cons]
    by_cases hside : o.side = s
    · rcases lt_trichotomy p o.price with hlt | heq | hgt
      · simp [List.filter_cons, hside, hlt, le_of_lt hlt, hlt.ne, hlt.ne'] at ih ⊢
        linarith
      · simp [List.filter_cons, hside, heq.symm] at ih ⊢
        linarith
      · simp [List.filter_cons, hside, not_le.mpr hgt,
          not_lt.mpr (le_of_lt hgt), hgt.ne] at ih ⊢
        linarith
    · simp [List.filter_cons, hside] at ih ⊢
      linarith

theorem levelSplit_le (s : String) (p : ℚ) (book : List Order) :
    ((book.filter (fun o => o.side = s ∧ o.price ≤ p)).map
      (fun o => o.size)).sum =
    levelSum s p book +
      ((book.filter (fun o => o.side = s ∧ o.price < p)).map
        (fun o => o.size)).sum := by
  induction book with
  | nil => simp [levelSum]
  | cons o rest ih =>
    rw [levelSum_cons]
    by_cases hside : o.side = s
    · rcases lt_trichotomy o.price p with hlt | heq | hgt
      · simp [List.filter_cons, hside, hlt, le_of_lt hlt, hlt.ne, hlt.ne'] at ih ⊢
        linarith
      · simp [List.filter_cons, hside, heq] at ih ⊢
        linarith
      · simp [List.filter_cons, hside, not_le.mpr hgt,
          not_lt.mpr (le_of_lt hgt), hgt.ne'] at ih ⊢
        linarith
    · simp [List.filter_cons, hside] at ih ⊢
      linarith

theorem cumRows_at_or_better_buy (book : List Order) :
    ∀ (ps : List ℚ) (acc : ℚ),
      List.Sorted (fun a b : ℚ => b < a) ps →
      (∀ o ∈ book, o.side = "buy" → ∀ p ∈ ps, o.price ≤ p → o.price ∈ ps) →
      acc = ((book.filter
        (fun o => o.side = "buy" ∧ ∀ q ∈ ps, q < o.price)).map
        (fun o => o.size)).sum →
      ∀ r ∈ cumRows "buy" book ps acc,
        r.cum_size = ((book.filter
          (fun o => o.side = "buy" ∧ r.price ≤ o.price)).map
          (fun o => o.size)).sum := by
  intro ps
  induction ps with
  | nil => intro acc _ _ _ r hr; simp [cumRows] at hr
  | cons p rest ih =>
    intro acc hsort hB hacc r hr
    have hrel : ∀ b ∈ rest, b < p := List.rel_of_sorted_cons hsort
    have hfull : book.filter
        (fun o => o.side = "buy" ∧ ∀ q ∈ p :: rest, q < o.price)
        = book.filter (fun o => o.side = "buy" ∧ p < o.price) := by
      apply List.filter_congr
      intro o ho
      apply decide_eq_decide.mpr
      constructor
      · rintro ⟨h1, h2⟩; exact ⟨h1, h2 p (by simp)⟩
      · rintro ⟨h1, h2⟩
        refine ⟨h1, ?_⟩
        intro q hq
        rcases List.mem_cons.mp hq with rfl | hq'
        · exact h2
        · exact lt_trans (hrel q hq') h2
    have hnext : book.filter
        (fun o => o.side = "buy" ∧ ∀ q ∈ rest, q < o.price)
        = book.filter (fun o => o.side = "buy" ∧ p ≤ o.price) := by
      apply List.filter_congr
      intro o ho
      apply decide_eq_decide.mpr
      constructor
      · rintro ⟨h1, h2⟩
        refine ⟨h1, ?_⟩
        by_contra hnp
        push_neg at hnp
        have hmem := hB o ho h1 p (by simp) (le_of_lt hnp)
        rcases List.mem_cons.mp hmem with heq | hin
        · exact absurd heq (ne_of_lt hnp)
        · exact absurd (h2 _ hin) (lt_irrefl _)
      · rintro ⟨h1, h2⟩
        exact ⟨h1, fun q hq => lt_of_lt_of_le (hrel q hq) h2⟩
    simp only [cumRows] at hr
    rcases List.mem_cons.mp hr with rfl | hr'
    · dsimp only
      rw [levelSplit_ge, hacc, hfull]
      ring
    · have hnext' : acc + levelSum "buy" p book =
          ((book.filter
            (fun o => o.side = "buy" ∧ ∀ q ∈ rest, q < o.price)).map
            (fun o => o.size)).sum := by
        rw [hnext, levelSplit_ge, hacc, hfull]
        ring
      exact ih (acc + levelSum "buy" p book) hsort.of_cons
        (fun o ho h1 q hq hle => by
          have hmem := hB o ho h1 q (List.mem_cons_of_mem _ hq) hle
          rcases List.mem_cons.mp hmem with heq | hin
          · exact absurd (heq ▸ hle) (not_le.mpr (hrel q hq))
          · exact hin)
        hnext' r hr'

theorem cumRows_at_or_better_sell (book : List Order) :
    ∀ (ps : List ℚ) (acc : ℚ),
      List.Sorted (fun a b : ℚ => a < b) ps →
      (∀ o ∈ book, o.side = "sell" → ∀ p ∈ ps, p ≤ o.price → o.price ∈ ps) →
      acc = ((book.filter
        (fun o => o.side = "sell" ∧ ∀ q ∈ ps, o.price < q)).map
        (fun o => o.size)).sum →
      ∀ r ∈ cumRows "sell" book ps acc,
        r.cum_size = ((book.filter
          (fun o => o.side = "sell" ∧ o.price ≤ r.price)).map
          (fun o => o.size)).sum := by
  intro ps
  induction ps with
  | nil => intro acc _ _ _ r hr; simp [cumRows] at hr
  | cons p rest ih =>
    intro acc hsort hB hacc r hr
    have hrel : ∀ b ∈ rest, p < b := List.rel_of_sorted_cons hsort
    have hfull : book.filter
        (fun o => o.side = "sell" ∧ ∀ q ∈ p :: rest, o.price < q)
        = book.filter (fun o => o.side = "sell" ∧ o.price < p) := by
      apply List.filter_congr
      intro o ho
      apply decide_eq_decide.mpr
      constructor
      · rintro ⟨h1, h2⟩; exact ⟨h1, h2 p (by simp)⟩
      · rintro ⟨h1, h2⟩
        refine ⟨h1, ?_⟩
        intro q hq
        rcases List.mem_cons.mp hq with rfl | hq'
        · exact h2
        · exact lt_trans h2 (hrel q hq')
    have hnext : book.filter
        (fun o => o.side = "sell" ∧ ∀ q ∈ rest, o.price < q)
        = book.filter (fun o => o.side = "sell" ∧ o.price ≤ p) := by
      apply List.filter_congr
      intro o ho
      apply decide_eq_decide.mpr
      constructor
      · rintro ⟨h1, h2⟩
        refine ⟨h1, ?_⟩
        by_contra hnp
        push_neg at hnp
        have hmem := hB o ho h1 p (by simp) (le_of_lt hnp)
        rcases List.mem_cons.mp hmem with heq | hin
        · exact absurd heq (ne_of_gt hnp)
        · exact absurd (h2 _ hin) (lt_irrefl _)
      · rintro ⟨h1, h2⟩
        exact ⟨h1, fun q hq => lt_of_le_of_lt h2 (hrel q hq)⟩
    simp only [cumRows] at hr
    rcases List.mem_cons.mp hr with rfl | hr'
    · dsimp only
      rw [levelSplit_le, hacc, hfull]
      ring
    · have hnext' : acc + levelSum "sell" p book =
          ((book.filter
            (fun o => o.side = "sell" ∧ ∀ q ∈ rest, o.price < q)).map
            (fun o => o.size)).sum := by
        rw [hnext, levelSplit_le, hacc, hfull]
        ring
      exact ih (acc + levelSum "sell" p book) hsort.of_cons
        (fun o ho h1 q hq hle => by
          have hmem := hB o ho h1 q (List.mem_cons_of_mem _ hq) hle
          rcases List.mem_cons.mp hmem with heq | hin
          · exact absurd (heq ▸ hle) (not_le.mpr (hrel q hq))
          · exact hin)
        hnext' r hr'

theorem cumRows_side (s : String) (book : List Order) :
    ∀ (ps : List ℚ) (acc : ℚ), ∀ r ∈ cumRows s book ps acc, r.side = s := by
  intro ps
  induction ps with
  | nil => intro acc r hr; simp [cumRows] at hr
  | cons p rest ih =>
    intro acc r hr
    simp only [cumRows] at hr
    rcases List.mem_cons.mp hr with rfl | hr'
    · rfl
    · exact ih _ r hr'

theorem depthSide_buy_spec (book : List Order) :
    ∀ r ∈ depthSide "buy" book,
      r.side = "buy" ∧
      r.cum_size = ((book.filter
        (fun o => o.side = "buy" ∧ r.price ≤ o.price)).map
        (fun o => o.size)).sum := by
  intro r hr
  unfold depthSide at hr
  by_cases h : book.filter (fun o => o.side = "buy") = []
  · rw [if_pos h] at hr; cases hr
  · rw [if_neg h] at hr
    refine ⟨cumRows_side _ _ _ _ r hr, ?_⟩
    refine cumRows_at_or_better_buy book (sidePrices "buy" book) 0
      (sidePrices_sorted_buy book)
      (fun o ho hs _ _ _ => sidePrices_mem "buy" book o ho hs) ?_ r hr
    have hnil : book.filter
        (fun o => o.side = "buy" ∧ ∀ q ∈ sidePrices "buy" book, q < o.price)
        = [] := by
      rw [List.filter_eq_nil_iff]
      rintro o ho hc
      rw [decide_eq_true_eq] at hc
      obtain ⟨hs, hall⟩ := hc
      exact absurd (hall _ (sidePrices_mem "buy" book o ho hs))
        (lt_irrefl _)
    rw [hnil]
    rfl

theorem depthSide_sell_spec (book : List Order) :
    ∀ r ∈ depthSide "sell" book,
      r.side = "sell" ∧
      r.cum_size = ((book.filter
        (fun o => o.side = "sell" ∧ o.price ≤ r.price)).map
        (fun o => o.size)).sum := by
  intro r hr
  unfold depthSide at hr
  by_cases h : book.filter (fun o => o.side = "sell") = []
  · rw [if_pos h] at hr; cases hr
  · rw [if_neg h] at hr
    refine ⟨cumRows_side _ _ _ _ r hr, ?_⟩
    refine cumRows_at_or_better_sell book (sidePrices "sell" book) 0
      (sidePrices_sorted_sell book)
      (fun o ho hs _ _ _ => sidePrices_mem "sell" book o ho hs) ?_ r hr
    have hnil : book.filter
        (fun o => o.side = "sell" ∧ ∀ q ∈ sidePrices "sell" book, o.price < q)
        = [] := by
      rw [List.filter_eq_nil_iff]
      rintro o ho hc
      rw [decide_eq_true_eq] at hc
      obtain ⟨hs, hall⟩ := hc
      exact absurd (hall _ (sidePrices_mem "sell" book o ho hs))
        (lt_irrefl _)
    rw [hnil]
    rfl

theorem depthSide_prices_sorted_buy (book : List Order) :
    List.Sorted (fun a b : ℚ => b < a)
      ((depthSide "buy" book).map (fun r => r.price)) := by
  unfold depthSide
  by_cases h : book.filter (fun o => o.side = "buy") = []
  · rw [if_pos h]; simp
  · rw [if_neg h, cumRows_map_price]
    exact sidePrices_sorted_buy book

theorem depthSide_prices_sorted_sell (book : List Order) :
    List.Sorted (fun a b : ℚ => a < b)
      ((depthSide "sell" book).map (fun r => r.price)) := by
  unfold depthSide
  by_cases h : book.filter (fun o => o.side = "sell") = []
  · rw [if_pos h]; simp
  · rw [if_neg h, cumRows_map_price]
    exact sidePrices_sorted_sell book

theorem depthSide_chain (s : String) (book : List Order)
    (h : ∀ o ∈ book, 0 ≤ o.size) :
    List.Chain' (fun a b : DepthRow => a.cum_size ≤ b.cum_size)
      (depthSide s book) := by
  unfold depthSide
  by_cases he : book.filter (fun o => o.side = s) = []
  · rw [if_pos he]; simp
  · rw [if_neg he]
    exact cumRows_chain s book h _ _

/-- A store reachable through `place_order` (which validates nothing)
holding a buy of size 5 at 100 and a buy of size −3 at 99. -/
def negSizeBook : EngineState :=
  placeOrder "buy" 99 (-3) (placeOrder "buy" 100 5 (initEngine 100))

/-- Claim C8 counterexample: on a store containing a negative-size resting
order — which `place_order` accepts — `get_cumulative_depth` produces the
buy rows (100, 5), (99, 2): the cumulative sizes strictly decrease along
the side's priority order, so the claimed monotonicity fails for this
store. -/
theorem claim_C8_counterexample :
    getCumulativeDepth negSizeBook =
      [⟨"buy", 100, 5⟩, ⟨"buy", 99, 2⟩] ∧
    ¬ List.Chain' (fun a b : DepthRow => a.cum_size ≤ b.cum_size)
      (getCumulativeDepth negSizeBook) := by
  have he : getCumulativeDepth negSizeBook =
      [⟨"buy", 100, 5⟩, ⟨"buy", 99, 2⟩] := by
    norm_num [getCumulativeDepth, depthSide, cumRows, sidePrices, levelSum,
      List.insertionSort, List.orderedInsert, negSizeBook, placeOrder,
      initEngine, List.filter_cons, List.dedup_cons_of_not_mem,
      List.cons_ne_nil]
  refine ⟨he, ?_⟩
  rw [he]
  simp only [List.chain'_cons, List.chain'_singleton, and_true]
  norm_num

/-- Claim C8 (amended): `get_cumulative_depth` groups live orders by side
and exact price, sums remaining size per level, orders buy levels by
strictly descending and sell levels by strictly ascending price, and emits
a per-side running cumulative sum — each row's cumulative size is the total
resting size of that side at prices at-or-better than the row's price; the
empty store yields an empty result.  The running sums are non-decreasing in
priority order provided every resting order has nonnegative remaining size
(which the engine's own purging maintains but `place_order` does not
enforce — see the counterexample). -/
theorem claim_C8_cumulative_depth (st : EngineState) :
    (st.orderBook = [] → getCumulativeDepth st = []) ∧
    getCumulativeDepth st =
      depthSide "buy" st.orderBook ++ depthSide "sell" st.orderBook ∧
    List.Sorted (fun a b : ℚ => b < a)
      ((depthSide "buy" st.orderBook).map (fun r => r.price)) ∧
    List.Sorted (fun a b : ℚ => a < b)
      ((depthSide "sell" st.orderBook).map (fun r => r.price)) ∧
    (∀ r ∈ depthSide "buy" st.orderBook, r.side = "buy" ∧
      r.cum_size = ((st.orderBook.filter
        (fun o => o.side = "buy" ∧ r.price ≤ o.price)).map
        (fun o => o.size)).sum) ∧
    (∀ r ∈ depthSide "sell" st.orderBook, r.side = "sell" ∧
      r.cum_size = ((st.orderBook.filter
        (fun o => o.side = "sell" ∧ o.price ≤ r.price)).map
        (fun o => o.size)).sum) ∧
    ((∀ o ∈ st.orderBook, 0 ≤ o.size) →
      List.Chain' (fun a b : DepthRow => a.cum_size ≤ b.cum_size)
        (depthSide "buy" st.orderBook) ∧
      List.Chain' (fun a b : DepthRow => a.cum_size ≤ b.cum_size)
        (depthSide "sell" st.orderBook)) := by
  refine ⟨?_, ?_, depthSide_prices_sorted_buy _, depthSide_prices_sorted_sell _,
    depthSide_buy_spec _, depthSide_sell_spec _,
    fun h => ⟨depthSide_chain _ _ h, depthSide_chain _ _ h⟩⟩
  · intro h
    simp [getCumulativeDepth, h]
  · by_cases h : st.orderBook = []
    · simp [getCumulativeDepth, depthSide, h]
    · simp [getCumulativeDepth, h]

/-- Claim C8 witness: on the bid-99/asks book every size is nonnegative, so
both per-side cumulative sequences are monotone; and the empty store gives
the empty result. -/
theorem claim_C8_witness :
    (List.Chain' (fun a b : DepthRow => a.cum_size ≤ b.cum_size)
        (depthSide "buy" impactBook.orderBook) ∧
      List.Chain' (fun a b : DepthRow => a.cum_size ≤ b.cum_size)
        (depthSide "sell" impactBook.orderBook)) ∧
    getCumulativeDepth (initEngine 100) = [] :=
  ⟨(claim_C8_cumulative_depth impactBook).2.2.2.2.2.2 (by
      intro o ho
      simp [impactBook, placeOrder, initEngine] at ho
      rcases ho with rfl | rfl | rfl | rfl <;> norm_num),
    (claim_C8_cumulative_depth (initEngine 100)).1 rfl⟩
